import Mathlib

/-!
Shallow embedding of the MCP session/transport layer of zai-cli:
`src/lib/mcp-session-manager.ts` (session store + SSE session acquisition),
`src/lib/mcp-client.ts` (session-based streaming tool invoker) and
`src/lib/mcp-curl-client.ts` (subprocess/curl fallback tool invoker).

JavaScript values that can appear as parsed JSON are modelled by the
inductive type `Json` (numbers are modelled as integers: every numeric
literal occurring in the modelled payloads is integral).  `undefined`
results of member access are modelled by `Option Json` with `none` for
`undefined`.  A thrown exception (`TypeError` on property access of
`null`) is modelled by `Except Unit`.
-/

inductive Json where
  | null : Json
  | bool (b : Bool) : Json
  | num (n : Int) : Json
  | str (s : String) : Json
  | arr (elems : List Json) : Json
  | obj (fields : List (String × Json)) : Json

/-- JavaScript truthiness of a parsed-JSON value: `null`, `false`, `0` and
the empty string are falsy, everything else (including `[]` and `\x7b\x7d`)
is truthy. -/
def Json.truthy : Json → Bool
  | .null => false
  | .bool b => b
  | .num n => n != 0
  | .str s => s ≠ ""
  | .arr _ => true
  | .obj _ => true

/-- First binding of a field name in an object's field list (JavaScript
object keys are unique, the model keeps the first match). -/
def lookupField : List (String × Json) → String → Option Json
  | [], _ => none
  | (k, v) :: rest, f => if k = f then some v else lookupField rest f

/-- JavaScript property access `j.f` for non-null `j`: `undefined` (`none`)
on anything but an object carrying the field.  Access on `null` throws and
is handled explicitly at each call site. -/
def jsMember : Json → String → Option Json
  | .obj kvs, f => lookupField kvs f
  | _, _ => none

/-- JavaScript indexing `j[0]`: first array element, first character of a
string, or the field named `0` of an object; otherwise `undefined`. -/
def jsIndex0 : Json → Option Json
  | .arr (x :: _) => some x
  | .arr [] => none
  | .str s => match s.data with
    | c :: _ => some (.str ⟨[c]⟩)
    | [] => none
  | .obj kvs => lookupField kvs "0"
  | _ => none

/-- `Array.prototype.join(sep)` on already converted pieces. -/
def joinWith (sep : String) : List String → String
  | [] => ""
  | [s] => s
  | s :: rest => s ++ sep ++ joinWith sep rest

mutual

/-- JavaScript `String(v)` conversion for parsed-JSON values: objects
render as `[object Object]`, arrays join their elements with commas. -/
def jsString : Json → String
  | .null => "null"
  | .bool true => "true"
  | .bool false => "false"
  | .num n => toString n
  | .str s => s
  | .arr xs => joinWith "," (jsStringPieces xs)
  | .obj _ => "[object Object]"

/-- Element conversions inside `Array.prototype.join` (`null` renders as
the empty string there). -/
def jsStringPieces : List Json → List String
  | [] => []
  | .null :: rest => "" :: jsStringPieces rest
  | j :: rest => jsString j :: jsStringPieces rest

end

/-- JSON whitespace accepted by `JSON.parse` between tokens. -/
def isJsonWs (c : Char) : Bool :=
  c = ' ' || c = '\t' || c = '\n' || c = '\r'

def skipWs (l : List Char) : List Char :=
  l.dropWhile isJsonWs

def isDigit (c : Char) : Bool :=
  48 ≤ c.toNat && c.toNat ≤ 57

def digitVal (c : Char) : Nat := c.toNat - 48

/-- Value of one hex digit (0-9, a-f, A-F as code points). -/
def hexVal (c : Char) : Option Nat :=
  let n := c.toNat
  if 48 ≤ n && n ≤ 57 then some (n - 48)
  else if 97 ≤ n && n ≤ 102 then some (n - 87)
  else if 65 ≤ n && n ≤ 70 then some (n - 55)
  else none

/-- Body of a JSON string literal after the opening quote; returns the
decoded characters and the remainder after the closing quote. -/
def parseStringRest : List Char → Option (List Char × List Char)
  | [] => none
  | '"' :: rest => some ([], rest)
  | '\\' :: esc => match esc with
    | [] => none
    | e :: rest =>
      match e with
      | '"' => (parseStringRest rest).map (fun (s, r) => ('"' :: s, r))
      | '\\' => (parseStringRest rest).map (fun (s, r) => ('\\' :: s, r))
      | '/' => (parseStringRest rest).map (fun (s, r) => ('/' :: s, r))
      | 'n' => (parseStringRest rest).map (fun (s, r) => ('\n' :: s, r))
      | 't' => (parseStringRest rest).map (fun (s, r) => ('\t' :: s, r))
      | 'r' => (parseStringRest rest).map (fun (s, r) => ('\r' :: s, r))
      | 'b' => (parseStringRest rest).map (fun (s, r) => ('\x08' :: s, r))
      | 'f' => (parseStringRest rest).map (fun (s, r) => ('\x0c' :: s, r))
      | 'u' => match rest with
        | h1 :: h2 :: h3 :: h4 :: rest2 =>
          match hexVal h1, hexVal h2, hexVal h3, hexVal h4 with
          | some a, some b, some c, some d =>
            (parseStringRest rest2).map
              (fun (s, r) => (Char.ofNat (16 * (16 * (16 * a + b) + c) + d) :: s, r))
          | _, _, _, _ => none
        | _ => none
      | _ => none
  | c :: rest => (parseStringRest rest).map (fun (s, r) => (c :: s, r))

/-- Accumulate decimal digits left to right. -/
def digitsVal (acc : Nat) : List Char → Nat
  | [] => acc
  | c :: cs => digitsVal (10 * acc + digitVal c) cs

/-- Nonnegative integer JSON number (the modelled payloads carry only
integral numbers; a fractional or exponent part makes the model's parse
fail). -/
def parseNumMag (l : List Char) : Option (Int × List Char) :=
  let ds := l.takeWhile isDigit
  if ds.isEmpty then none
  else
    match l.dropWhile isDigit with
    | '.' :: _ => none
    | 'e' :: _ => none
    | 'E' :: _ => none
    | rest => some (Int.ofNat (digitsVal 0 ds), rest)

def parseNumber (l : List Char) : Option (Int × List Char) :=
  match l with
  | '-' :: rest => (parseNumMag rest).map (fun (n, r) => (-n, r))
  | _ => parseNumMag l

mutual

/-- Fuel-based recursive-descent JSON value parser. -/
def parseJ : Nat → List Char → Option (Json × List Char)
  | 0, _ => none
  | Nat.succ fuel, l =>
    match skipWs l with
    | '\x7b' :: rest =>
      match skipWs rest with
      | '\x7d' :: rest2 => some (.obj [], rest2)
      | rest2 => (parseMembers fuel rest2).map (fun (kvs, r) => (.obj kvs, r))
    | '[' :: rest =>
      match skipWs rest with
      | ']' :: rest2 => some (.arr [], rest2)
      | rest2 => (parseElems fuel rest2).map (fun (xs, r) => (.arr xs, r))
    | '"' :: rest => (parseStringRest rest).map (fun (s, r) => (.str ⟨s⟩, r))
    | 't' :: 'r' :: 'u' :: 'e' :: rest => some (.bool true, rest)
    | 'f' :: 'a' :: 'l' :: 's' :: 'e' :: rest => some (.bool false, rest)
    | 'n' :: 'u' :: 'l' :: 'l' :: rest => some (.null, rest)
    | rest => (parseNumber rest).map (fun (n, r) => (.num n, r))

/-- Members of an object after `\x7b`, first member expected next. -/
def parseMembers : Nat → List Char → Option (List (String × Json) × List Char)
  | 0, _ => none
  | Nat.succ fuel, l =>
    match skipWs l with
    | '"' :: rest =>
      match parseStringRest rest with
      | none => none
      | some (key, rest2) =>
        match skipWs rest2 with
        | ':' :: rest3 =>
          match parseJ fuel rest3 with
          | none => none
          | some (v, rest4) =>
            match skipWs rest4 with
            | ',' :: rest5 =>
              (parseMembers fuel rest5).map (fun (kvs, r) => ((⟨key⟩, v) :: kvs, r))
            | '\x7d' :: rest5 => some ([(⟨key⟩, v)], rest5)
            | _ => none
        | _ => none
    | _ => none

/-- Elements of an array after `[`, first element expected next. -/
def parseElems : Nat → List Char → Option (List Json × List Char)
  | 0, _ => none
  | Nat.succ fuel, l =>
    match parseJ fuel l with
    | none => none
    | some (v, rest) =>
      match skipWs rest with
      | ',' :: rest2 => (parseElems fuel rest2).map (fun (xs, r) => (v :: xs, r))
      | ']' :: rest2 => some ([v], rest2)
      | _ => none

end

/-- Model of `JSON.parse` on a character list: a single JSON value with
only (JSON) whitespace around it.  Fuel `length + 1` suffices because
every recursive step consumes at least one character. -/
def jsonParseL (l : List Char) : Option Json :=
  match parseJ (l.length + 1) l with
  | some (j, rest) => if (skipWs rest).isEmpty then some j else none
  | none => none

def jsonParse (s : String) : Option Json := jsonParseL s.data

/-- Whitespace recognised by JavaScript's `String.prototype.trim` and by
the `\s` character class (modelled on its ASCII members plus NBSP and the
BOM; the modelled payloads contain no other Unicode spaces). -/
def isJsWs (c : Char) : Bool :=
  c = ' ' || c = '\t' || c = '\n' || c = '\r' || c = '\x0b' || c = '\x0c' ||
  c = '\xa0' || c = '\uFEFF'

/-- JavaScript `String.prototype.trim`. -/
def jsTrimL (l : List Char) : List Char :=
  ((l.dropWhile isJsWs).reverse.dropWhile isJsWs).reverse

def jsTrimS (s : String) : String := ⟨jsTrimL s.data⟩

/-- The trimmed text's leading character is `\x7b` or `[`. -/
def startsBrace (l : List Char) : Bool :=
  match l with
  | c :: _ => c = '\x7b' || c = '['
  | [] => false

/-- JavaScript `string.split('\n')`: n separators yield n+1 pieces,
including empty ones. -/
def splitNl : List Char → List (List Char)
  | [] => [[]]
  | c :: cs =>
    if c = '\n' then [] :: splitNl cs
    else match splitNl cs with
      | [] => [[c]]
      | l :: ls => (c :: l) :: ls

def containsSubL (s pat : List Char) : Bool :=
  match s with
  | [] => pat.isEmpty
  | _ :: rest => pat.isPrefixOf s || containsSubL rest pat

/-- `pat` occurs as a substring of `s` (JavaScript `includes`). -/
def containsSub (s pat : String) : Bool := containsSubL s.data pat.data

/-! ## Response normalization (identical text in mcp-client.ts and
mcp-curl-client.ts): `content.map((c) => c.text || c).join('\n')`, then a
JSON re-parse when the trimmed text starts with a brace or bracket. -/

/-- One mapped element `c.text || c`: throws (`.error`) when `c` is the
JSON null (property access on null raises a TypeError). -/
def elemText : Json → Except Unit Json
  | .null => .error ()
  | c => .ok (match jsMember c "text" with
      | some t => if t.truthy then t else c
      | none => c)

/-- `content.map(...)` with the first thrown TypeError propagating. -/
def mapElems : List Json → Except Unit (List Json)
  | [] => .ok []
  | c :: cs =>
    match elemText c with
    | .error e => .error e
    | .ok v =>
      match mapElems cs with
      | .error e => .error e
      | .ok vs => .ok (v :: vs)

/-- The normalizer applied to a truthy `result.content` value. -/
def normalizeResult (content : Json) : Except Unit Json :=
  match content with
  | .arr xs =>
    match mapElems xs with
    | .error e => .error e
    | .ok pieces =>
      let textContent := joinWith "\n" (jsStringPieces pieces)
      if startsBrace (jsTrimL textContent.data) then
        match jsonParse textContent with
        | some v => .ok v
        | none => .ok (.str textContent)
      else .ok (.str textContent)
  | c => .ok c

/-! ## Per-payload classification shared by both transports. -/

/-- The reject shapes the model distinguishes: a fully determined
`Error` message; curl's catch-all wrapper ("Failed to parse MCP
response: ..." whose tail embeds engine-specific text); and the
streaming client re-raising the engine's JSON.parse SyntaxError for the
given payload (its message is the engine's template text plus a quoted
snippet of the payload). -/
inductive CallFail where
  | message (s : String) : CallFail
  | parseFailure : CallFail
  | syntaxReject (payload : List Char) : CallFail
deriving DecidableEq, Repr

/-- The keyword test at mcp-client.ts line 154 applied to a JSON.parse
SyntaxError.  On Node >= 22 (this repository requires it) the message is
fixed template text - which never contains MCP or error - plus a quoted
snippet of the offending input, so the catch rejects exactly when the
snippet contains one of the keywords.  The model tests the whole
payload: this coincides with the engine whenever the payload is
keyword-free (every substring of a keyword-free string is keyword-free)
and whenever the payload is short enough for V8 to quote it whole,
which covers every payload this development evaluates. -/
def parseRejects (d : List Char) : Bool :=
  containsSubL d ("MCP").data || containsSubL d ("error").data

inductive StepR where
  | failR (e : CallFail) : StepR
  | succeedR (v : Json) : StepR
  | continueR : StepR

/-- Truthiness of `json.error` (call sites guarantee `j` is not null). -/
def errTruthy (j : Json) : Bool :=
  match jsMember j "error" with
  | some e => e.truthy
  | none => false

/-- Truthiness of `json.result?.isError`. -/
def isErrTruthy (j : Json) : Bool :=
  match jsMember j "result" with
  | some r => match r with
    | .null => false
    | _ => match jsMember r "isError" with
      | some t => t.truthy
      | none => false
  | none => false

/-- `json.result?.content` (undefined when `result` is null, undefined or
has no such field). -/
def contentField (j : Json) : Option Json :=
  match jsMember j "result" with
  | some .null => none
  | some r => jsMember r "content"
  | none => none

/-- `json.result?.content?.[0]?.text`. -/
def contentText0 (j : Json) : Option Json :=
  match contentField j with
  | some .null => none
  | some c =>
    match jsIndex0 c with
    | some .null => none
    | some x => jsMember x "text"
    | none => none
  | none => none

/-- `json.error?.message`. -/
def errMsgField (j : Json) : Option Json :=
  match jsMember j "error" with
  | some .null => none
  | some e => jsMember e "message"
  | none => none

def mcpFailMsg : String := "MCP tool call failed"

/-- `v || dflt` followed by `new Error(...)`'s string conversion: the
value's `String()` rendering when truthy, otherwise the default. -/
def truthyOr (o : Option Json) (dflt : String) : String :=
  match o with
  | some v => if v.truthy then jsString v else dflt
  | none => dflt

/-- Trailing branches `if (json.result) resolve(json.result)` / continue. -/
def bareResult (j : Json) : StepR :=
  match jsMember j "result" with
  | some r => if r.truthy then .succeedR r else .continueR
  | none => .continueR

/-- Streaming invoker's handling of one parsed `data:` payload
(mcp-client.ts lines 104-160). -/
def sseStep (j : Json) : StepR :=
  match j with
  | .null => .continueR
    -- json.result?.isError on null throws a TypeError; the catch keeps
    -- reading unless the engine message mentions MCP or the word error,
    -- and "Cannot read properties of null (reading 'result')" has neither
  | _ =>
    if isErrTruthy j || errTruthy j then
      .failR (.message (truthyOr (contentText0 j) (truthyOr (errMsgField j) mcpFailMsg)))
    else
      match contentField j with
      | some c =>
        if c.truthy then
          match normalizeResult c with
          | .ok v => .succeedR v
          | .error _ => .continueR
            -- TypeError from a null element is swallowed by the same catch
        else bareResult j
      | none => bareResult j

def streamEndMsg : String := "MCP stream ended without result"

def dataKeyL : List Char := "data:".data

/-- `line.startsWith('data:')` and `line.slice(5).trim()`. -/
def dataOf (line : List Char) : Option (List Char) :=
  if dataKeyL.isPrefixOf line then some (jsTrimL (line.drop 5)) else none

/-- Streaming invoker's loop over the complete (newline terminated)
lines of the response body. -/
def sseProcess : List (List Char) → Except CallFail Json
  | [] => .error (.message streamEndMsg)
  | l :: ls =>
    match dataOf l with
    | none => sseProcess ls
    | some d =>
      if d.isEmpty then sseProcess ls
      else match jsonParseL d with
        | none =>
          if parseRejects d then .error (.syntaxReject d) else sseProcess ls
          -- a JSON.parse failure is re-raised as the reject when the
          -- engine message contains MCP or the word error (see
          -- parseRejects), and is skipped otherwise
        | some j =>
          match sseStep j with
          | .failR e => .error e
          | .succeedR v => .ok v
          | .continueR => sseProcess ls

/-- The complete lines the streaming loop ever processes: the code splits
the cumulative buffer on newline and keeps the final piece as the unread
buffer, so over the whole body exactly the pieces before the last newline
are examined, independent of chunk boundaries. -/
def sseLines (body : String) : List (List Char) := (splitNl body.data).dropLast

/-- Outcome of `callRemoteMcpTool`'s stream processing on a full response
body (mcp-client.ts lines 76-183; the HTTP status, missing-body and
timeout failures short-circuit earlier and are outside this function). -/
def callRemoteMcpToolBody (body : String) : Except CallFail Json :=
  sseProcess (sseLines body)

/-- Curl invoker's handling of the parsed payload, error branch first
(mcp-curl-client.ts lines 110-156). -/
def curlBare (j : Json) : Except CallFail Json :=
  match jsMember j "result" with
  | some r => if r.truthy then .ok r else .error (.message "No result in MCP response")
  | none => .error (.message "No result in MCP response")

def curlStepRest (j : Json) : Except CallFail Json :=
  if isErrTruthy j then .error (.message (truthyOr (contentText0 j) mcpFailMsg))
  else
    match contentField j with
    | some c =>
      if c.truthy then
        match normalizeResult c with
        | .ok v => .ok v
        | .error _ => .error .parseFailure
          -- the TypeError reaches the outer catch and is re-wrapped
      else curlBare j
    | none => curlBare j

def curlStep (j : Json) : Except CallFail Json :=
  match j with
  | .null => .error .parseFailure
    -- json.error on null throws; the outer catch wraps the TypeError
  | _ =>
    match jsMember j "error" with
    | some e =>
      if e.truthy then .error (.message (truthyOr (jsMember e "message") mcpFailMsg))
      else curlStepRest j
    | none => curlStepRest j

/-- Curl invoker's SSE unwrapping: when the buffer mentions `data:`
anywhere, the first line starting with `data:` replaces the whole buffer
(staying with the buffer when no such line exists). -/
def curlExtract (buffer : String) : List Char :=
  if containsSub buffer "data:" then
    match (splitNl buffer.data).find? (fun l => dataKeyL.isPrefixOf l) with
    | some line => jsTrimL (line.drop 5)
    | none => buffer.data
  else buffer.data

/-- Outcome of `callMcpTool`'s close handler on the captured stdout
(mcp-curl-client.ts lines 96-160), given a zero exit status. -/
def callMcpToolBody (buffer : String) : Except CallFail Json :=
  match jsonParseL (curlExtract buffer) with
  | none => .error .parseFailure
  | some j => curlStep j

/-! ## URL construction. -/

/-- mcp-curl-client.ts `getEndpointWithAuth`: raw key, separator chosen
by whether the endpoint already carries a query string. -/
def hasChar (s : String) (c : Char) : Bool := s.data.any (fun x => x = c)

def getEndpointWithAuth (endpoint apiKey : String) : String :=
  let sep := if hasChar endpoint '?' then "&" else "?"
  endpoint ++ sep ++ "Authorization=" ++ apiKey

/-- mcp-session-manager.ts `createSession`'s fetch URL (the template
literal always uses `?`). -/
def sessionOpenUrl (sseEndpoint apiKey : String) : String :=
  sseEndpoint ++ "?Authorization=" ++ apiKey

/-- `replace(/\/sse$/, '')`. -/
def stripSseSuffix (s : String) : String :=
  if "/sse".data.isSuffixOf s.data then ⟨s.data.take (s.data.length - 4)⟩ else s

def stripHost (orig : String) (rest : List Char) : String :=
  let host := rest.takeWhile (fun c => !(c = '/'))
  if host.isEmpty then orig else ⟨rest.drop host.length⟩

/-- `replace(/^https?:\/\/[^\/]+/, '')`. -/
def stripOrigin (s : String) : String :=
  if "https://".data.isPrefixOf s.data then stripHost s (s.data.drop 8)
  else if "http://".data.isPrefixOf s.data then stripHost s (s.data.drop 7)
  else s

/-- mcp-client.ts lines 42-44: the message-submission URL. -/
def messageUrl (sseEndpoint sessionId apiKey : String) : String :=
  "https://api.z.ai" ++ stripOrigin (stripSseSuffix sseEndpoint) ++
    "/message?sessionId=" ++ sessionId ++ "&Authorization=" ++ apiKey

/-! ## Session store (mcp-session-manager.ts).  The on-disk JSON record
map is modelled as an association list with unique keys; `Date.now()` is
an explicit `now` parameter and the network acquisition (`createSession`)
is an oracle supplying `freshId`, with the third component counting how
many acquisitions the call performed. -/

structure SessionInfo where
  sessionId : String
  endpoint : String
  createdAt : Nat
  expiresAt : Nat
deriving DecidableEq, Repr

abbrev SessionCache := List (String × SessionInfo)

def SESSION_TTL : Nat := 3600000

def cacheKeyOf (sseEndpoint apiKey : String) : String :=
  sseEndpoint ++ "|" ++ apiKey

def lookupSession : SessionCache → String → Option SessionInfo
  | [], _ => none
  | (k, v) :: rest, key => if k = key then some v else lookupSession rest key

def insertSession : SessionCache → String → SessionInfo → SessionCache
  | [], key, v => [(key, v)]
  | (k, w) :: rest, key, v =>
    if k = key then (k, v) :: rest else (k, w) :: insertSession rest key v

/-- `getSession`: cached id when unexpired, otherwise acquire, store with
a one-hour window and return; the `Nat` result counts acquisitions. -/
def getSession (cache : SessionCache) (now : Nat) (sseEndpoint apiKey freshId : String) :
    String × SessionCache × Nat :=
  let key := cacheKeyOf sseEndpoint apiKey
  match lookupSession cache key with
  | some c =>
    if now < c.expiresAt then (c.sessionId, cache, 0)
    else
      (freshId, insertSession cache key
        ⟨freshId, sseEndpoint, now, now + SESSION_TTL⟩, 1)
  | none =>
    (freshId, insertSession cache key
      ⟨freshId, sseEndpoint, now, now + SESSION_TTL⟩, 1)

/-- `clearExpiredSessions`: drop every record with `expiresAt <= now`. -/
def clearExpiredSessions (cache : SessionCache) (now : Nat) : SessionCache :=
  cache.filter (fun kv => decide (now < kv.2.expiresAt))

def clearAllSessions : SessionCache := []

/-! ## Session-id extraction (`buffer.match(/sessionId=([^&\s\n]+)/)`). -/

/-- A character ending the captured value: `&` or anything in `\s`. -/
def isStop (c : Char) : Bool := c = '&' || isJsWs c

def sessionKeyL : List Char := "sessionId=".data

/-- First-match semantics of the regex: scan left to right for
`sessionId=` followed by at least one non-stop character; capture the
maximal run of non-stop characters. -/
def findSessionId : List Char → Option (List Char)
  | [] => none
  | c :: cs =>
    if sessionKeyL.isPrefixOf (c :: cs) then
      let v := ((c :: cs).drop 10).takeWhile (fun x => !isStop x)
      if v.isEmpty then findSessionId cs else some v
    else findSessionId cs

def extractSessionId (buffer : String) : Option String :=
  (findSessionId buffer.data).map (fun l => ⟨l⟩)

/-! ## Reference definitions taken from the claims' wording (they are
compared against the embedded code; they are not translations of the
source). -/

/-- Modelled from the claim's reference definition of the normalizer:
"each element's text field (or the element itself when it is already
text)", with no truthiness condition and no exception. -/
def specElemText (c : Json) : Json :=
  match c with
  | .obj kvs =>
    match lookupField kvs "text" with
    | some t => t
    | none => .obj kvs
  | other => other

/-- The claim's reference normalizer: a total function. -/
def specNormalize (content : Json) : Json :=
  match content with
  | .arr xs =>
    let textContent := joinWith "\n" (jsStringPieces (xs.map specElemText))
    if startsBrace (jsTrimL textContent.data) then
      match jsonParse textContent with
      | some v => v
      | none => .str textContent
    else .str textContent
  | c => c

/-- Amended reference normalizer: an element's truthy `text` field is
used, otherwise the element itself; total on arrays without null
elements. -/
def amendedElemText (c : Json) : Json :=
  match c with
  | .obj kvs =>
    match lookupField kvs "text" with
    | some t => if t.truthy then t else .obj kvs
    | none => .obj kvs
  | other => other

def amendedNormalize (content : Json) : Json :=
  match content with
  | .arr xs =>
    let textContent := joinWith "\n" (jsStringPieces (xs.map amendedElemText))
    if startsBrace (jsTrimL textContent.data) then
      match jsonParse textContent with
      | some v => v
      | none => .str textContent
    else .str textContent
  | c => c

/-! ## Helper lemmas. -/

theorem strDataEq {a b : String} (h : a.data = b.data) : a = b :=
  congrArg String.mk h

theorem strAppendData (a b : String) : (a ++ b).data = a.data ++ b.data := rfl

theorem strAssoc (a b c : String) : a ++ b ++ c = a ++ (b ++ c) :=
  strDataEq (by simp [strAppendData, List.append_assoc])

theorem strCancelLeft {a b c : String} (h : a ++ b = a ++ c) : b = c := by
  apply strDataEq
  have h2 : a.data ++ b.data = a.data ++ c.data := by
    simpa [strAppendData] using congrArg String.data h
  exact List.append_cancel_left h2

theorem strRegroup (a C D k : String) : a ++ (C ++ D) ++ k = ((a ++ C) ++ D) ++ k :=
  congrArg (· ++ k) (strAssoc a C D).symm

theorem strMerge (a k B C D : String) (h : B = C ++ D) :
    a ++ B ++ k = a ++ C ++ D ++ k := by
  subst h
  exact strRegroup a C D k

theorem lookupInsertSame (cache : SessionCache) (key : String) (v : SessionInfo) :
    lookupSession (insertSession cache key v) key = some v := by
  induction cache with
  | nil => simp [insertSession, lookupSession]
  | cons kv rest ih =>
    obtain ⟨k, w⟩ := kv
    by_cases h : k = key <;> simp [insertSession, lookupSession, h, ih]

theorem getSessionHit (cache : SessionCache) (now : Nat) (e k f : String) (c : SessionInfo)
    (hc : lookupSession cache (cacheKeyOf e k) = some c) (ht : now < c.expiresAt) :
    getSession cache now e k f = (c.sessionId, cache, 0) := by
  simp [getSession, hc, ht]

theorem getSessionPresent (cache : SessionCache) (now : Nat) (e k f : String) :
    ∃ c, lookupSession (getSession cache now e k f).2.1 (cacheKeyOf e k) = some c ∧
      c.sessionId = (getSession cache now e k f).1 := by
  unfold getSession
  cases hl : lookupSession cache (cacheKeyOf e k) with
  | none =>
    simp only [hl]
    exact ⟨_, lookupInsertSame cache (cacheKeyOf e k) _, rfl⟩
  | some c =>
    by_cases ht : now < c.expiresAt
    · simp only [hl, ht, if_true]
      exact ⟨c, rfl, rfl⟩
    · simp only [hl, ht, if_false]
      exact ⟨_, lookupInsertSame cache (cacheKeyOf e k) _, rfl⟩

/-! ## Claim theorems. -/

/-- C1: for every credential string (including ones containing the
characters + / ? & =), the session-open URL, the message-submission URL
and the fallback transport's endpoint URL all contain the credential
verbatim as the value of the Authorization query parameter: each URL is
some prefix followed by the literal text Authorization= followed by the
raw credential. -/
theorem mcp_c1 (endpoint sseEndpoint sessionId apiKey : String) :
    (∃ p, sessionOpenUrl sseEndpoint apiKey = p ++ "Authorization=" ++ apiKey) ∧
    (∃ p, messageUrl sseEndpoint sessionId apiKey = p ++ "Authorization=" ++ apiKey) ∧
    (∃ p, getEndpointWithAuth endpoint apiKey = p ++ "Authorization=" ++ apiKey) := by
  refine ⟨⟨sseEndpoint ++ "?", ?_⟩,
    ⟨"https://api.z.ai" ++ stripOrigin (stripSseSuffix sseEndpoint) ++
      "/message?sessionId=" ++ sessionId ++ "&", ?_⟩,
    ⟨endpoint ++ (if hasChar endpoint '?' then "&" else "?"), rfl⟩⟩
  · exact strMerge sseEndpoint apiKey "?Authorization=" "?" "Authorization=" (by decide)
  · exact strMerge ("https://api.z.ai" ++ stripOrigin (stripSseSuffix sseEndpoint) ++
      "/message?sessionId=" ++ sessionId) apiKey "&Authorization=" "&" "Authorization="
      (by decide)

/-- C5: a second getSession call for the same (endpoint, credential)
while the cached record is still within its validity window (now <
expiresAt) returns the id produced by the first call, leaves the store
unchanged, and performs zero acquisitions. -/
theorem mcp_c5 (cache : SessionCache) (t0 t1 : Nat) (e k f1 f2 : String)
    (h : ∀ c, lookupSession (getSession cache t0 e k f1).2.1 (cacheKeyOf e k) = some c →
      t1 < c.expiresAt) :
    getSession (getSession cache t0 e k f1).2.1 t1 e k f2 =
      ((getSession cache t0 e k f1).1, (getSession cache t0 e k f1).2.1, 0) := by
  obtain ⟨c, hc, hid⟩ := getSessionPresent cache t0 e k f1
  rw [getSessionHit _ _ _ _ _ c hc (h c hc), hid]

/-- C5 witness: after acquiring a session for ("E", "K") at time 0, a
second call at time 5 (within the one-hour window) returns the same id
with zero acquisitions. -/
theorem mcp_c5_witness :
    getSession (getSession [] 0 "E" "K" "S1").2.1 5 "E" "K" "S2" =
      ((getSession [] 0 "E" "K" "S1").1, (getSession [] 0 "E" "K" "S1").2.1, 0) := by
  apply mcp_c5
  intro c hc
  have he : lookupSession (getSession [] 0 "E" "K" "S1").2.1 (cacheKeyOf "E" "K") =
      some (⟨"S1", "E", 0, 3600000⟩ : SessionInfo) := by rfl
  rw [he] at hc
  cases hc
  decide

/-- C6 counterexample: the store key is the string endpoint|credential,
which is not injective on (endpoint, credential) pairs: a session stored
for ("e|x", "k") is returned for the distinct pair ("e", "x|k") with
zero acquisitions. -/
theorem mcp_c6_cex :
    (getSession ((getSession [] 0 "e|x" "k" "S1").2.1) 1 "e" "x|k" "S2").1 = "S1" ∧
    (getSession ((getSession [] 0 "e|x" "k" "S1").2.1) 1 "e" "x|k" "S2").2.2 = 0 ∧
    ¬ ("e|x" = "e" ∧ "k" = "x|k") := by
  refine ⟨rfl, rfl, ?_⟩
  decide

/-- C6 amended: sessions are keyed by the string endpoint|credential, so
distinct pairs can collide when a component contains the | character;
for a fixed endpoint the key is injective in the credential, hence two
different credentials against the same endpoint always trigger two
independent acquisitions returning their own ids. -/
theorem mcp_c6_amended (t : Nat) (e c1 c2 f1 f2 : String) (h : c1 ≠ c2) :
    ((getSession [] t e c1 f1).1 = f1 ∧ (getSession [] t e c1 f1).2.2 = 1) ∧
    (getSession (getSession [] t e c1 f1).2.1 t e c2 f2).1 = f2 ∧
    (getSession (getSession [] t e c1 f1).2.1 t e c2 f2).2.2 = 1 := by
  have hkey : cacheKeyOf e c1 ≠ cacheKeyOf e c2 := by
    intro hk
    have hk2 : e ++ ("|" ++ c1) = e ++ ("|" ++ c2) :=
      (strAssoc e "|" c1).symm.trans (hk.trans (strAssoc e "|" c2))
    exact h (strCancelLeft (strCancelLeft hk2))
  have h1 : getSession [] t e c1 f1 =
      (f1, [(cacheKeyOf e c1, ⟨f1, e, t, t + SESSION_TTL⟩)], 1) := rfl
  rw [h1]
  have h2 : lookupSession [(cacheKeyOf e c1, (⟨f1, e, t, t + SESSION_TTL⟩ : SessionInfo))]
      (cacheKeyOf e c2) = none := by
    simp [lookupSession, hkey]
  refine ⟨⟨rfl, rfl⟩, ?_, ?_⟩ <;> simp [getSession, h2, insertSession]

/-- C6 amended witness: same endpoint, credentials "a" and "b": both
calls acquire (count 1) and return their own fresh ids. -/
theorem mcp_c6_amended_witness :
    ((getSession [] 0 "E" "a" "S1").1 = "S1" ∧ (getSession [] 0 "E" "a" "S1").2.2 = 1) ∧
    (getSession (getSession [] 0 "E" "a" "S1").2.1 0 "E" "b" "S2").1 = "S2" ∧
    (getSession (getSession [] 0 "E" "a" "S1").2.1 0 "E" "b" "S2").2.2 = 1 :=
  mcp_c6_amended 0 "E" "a" "b" "S1" "S2" (by decide)

/-- C9 counterexample: the session-open URL built by createSession always
joins with ?, even when the endpoint already carries a query string, so
the claim's &-join rule fails for it. -/
theorem mcp_c9_cex :
    sessionOpenUrl "https://h/sse?a=1" "k" = "https://h/sse?a=1?Authorization=k" ∧
    hasChar "https://h/sse?a=1" '?' = true ∧
    containsSub (sessionOpenUrl "https://h/sse?a=1" "k") "&Authorization=" = false :=
  ⟨by decide, by decide, by decide⟩

/-- C9 amended: the fallback transport's endpoint URL joins the
Authorization parameter with & when the endpoint already has a query
string and with ? when it is bare; the session-open URL always joins
with ?, regardless of the endpoint's query string. -/
theorem mcp_c9_amended (endpoint sseEndpoint apiKey : String) :
    (hasChar endpoint '?' = true →
      getEndpointWithAuth endpoint apiKey = endpoint ++ "&Authorization=" ++ apiKey) ∧
    (hasChar endpoint '?' = false →
      getEndpointWithAuth endpoint apiKey = endpoint ++ "?Authorization=" ++ apiKey) ∧
    sessionOpenUrl sseEndpoint apiKey = sseEndpoint ++ "?Authorization=" ++ apiKey := by
  refine ⟨fun h => ?_, fun h => ?_, rfl⟩
  · have hu : getEndpointWithAuth endpoint apiKey =
        endpoint ++ "&" ++ "Authorization=" ++ apiKey := by
      simp [getEndpointWithAuth, h]
    rw [hu]
    exact (strMerge endpoint apiKey "&Authorization=" "&" "Authorization=" (by decide)).symm
  · have hu : getEndpointWithAuth endpoint apiKey =
        endpoint ++ "?" ++ "Authorization=" ++ apiKey := by
      simp [getEndpointWithAuth, h]
    rw [hu]
    exact (strMerge endpoint apiKey "?Authorization=" "?" "Authorization=" (by decide)).symm

/-- C9 amended witness: endpoint with a query string gets &, a bare one
gets ?, and the session-open URL uses ? on a query-bearing endpoint. -/
theorem mcp_c9_amended_witness :
    getEndpointWithAuth "https://h/mcp?x=1" "k" =
      "https://h/mcp?x=1" ++ "&Authorization=" ++ "k" ∧
    getEndpointWithAuth "https://h/mcp" "k" = "https://h/mcp" ++ "?Authorization=" ++ "k" ∧
    sessionOpenUrl "https://h/sse?x=1" "k" = "https://h/sse?x=1" ++ "?Authorization=" ++ "k" :=
  ⟨(mcp_c9_amended "https://h/mcp?x=1" "x" "k").1 (by decide),
   (mcp_c9_amended "https://h/mcp" "x" "k").2.1 (by decide),
   (mcp_c9_amended "x" "https://h/sse?x=1" "k").2.2⟩

/-- C10: clearExpiredSessions keeps exactly the records whose expiresAt
is strictly in the future (every kept record is unchanged: same key and
same four fields), and clearAllSessions leaves the store empty. -/
theorem mcp_c10 (cache : SessionCache) (now : Nat) :
    (∀ kv, kv ∈ clearExpiredSessions cache now ↔ (kv ∈ cache ∧ now < kv.2.expiresAt)) ∧
    clearAllSessions = ([] : SessionCache) := by
  refine ⟨fun kv => ?_, rfl⟩
  simp [clearExpiredSessions, List.mem_filter]

/-! ## Session-id extraction lemmas (C7). -/

theorem dropWhileHeadFalse (p : Char → Bool) :
    ∀ (l : List Char) (c : Char) (cs : List Char), l.dropWhile p = c :: cs → p c = false := by
  intro l
  induction l with
  | nil => intro c cs h; simp [List.dropWhile] at h
  | cons a as ih =>
    intro c cs h
    by_cases hp : p a = true
    · rw [List.dropWhile_cons, if_pos hp] at h
      exact ih c cs h
    · rw [List.dropWhile_cons, if_neg hp] at h
      cases h
      exact Bool.eq_false_iff.mpr hp

theorem findSessionIdPrefix (buf : List Char) (hp : sessionKeyL.isPrefixOf buf = true)
    (hne : ¬ (((buf.drop 10).takeWhile (fun x => !isStop x)).isEmpty = true)) :
    findSessionId buf = some ((buf.drop 10).takeWhile (fun x => !isStop x)) := by
  cases buf with
  | nil => exact absurd hp (by decide)
  | cons a as =>
    rw [findSessionId, if_pos hp, if_neg hne]

theorem findSessionIdSound :
    ∀ (buf v : List Char), findSessionId buf = some v →
      v ≠ [] ∧ (∀ c ∈ v, isStop c = false) ∧
      ∃ p rest, buf = p ++ sessionKeyL ++ (v ++ rest) ∧
        (rest = [] ∨ ∃ c cs, rest = c :: cs ∧ isStop c = true) := by
  intro buf
  induction buf with
  | nil => intro v h; simp [findSessionId] at h
  | cons a as ih =>
    intro v h
    rw [findSessionId] at h
    by_cases hp : sessionKeyL.isPrefixOf (a :: as) = true
    · rw [if_pos hp] at h
      by_cases he : (((a :: as).drop 10).takeWhile (fun x => !isStop x)).isEmpty = true
      · rw [if_pos he] at h
        obtain ⟨hne, hv, p, rest, hsplit, hstop⟩ := ih v h
        exact ⟨hne, hv, a :: p, rest, by simp [hsplit], hstop⟩
      · rw [if_neg he] at h
        cases h
        obtain ⟨tail, htail⟩ := List.isPrefixOf_iff_prefix.mp hp
        have hlen : sessionKeyL.length = 10 := rfl
        have hdrop : (a :: as).drop 10 = tail := by
          rw [← htail, ← hlen, List.drop_left]
        refine ⟨?_, ?_, [], tail.dropWhile (fun x => !isStop x), ?_, ?_⟩
        · intro hnil
          rw [hnil] at he
          exact he rfl
        · intro c hc
          have := List.mem_takeWhile_imp hc
          simpa using this
        · rw [List.nil_append, hdrop, List.takeWhile_append_dropWhile, htail]
        · cases hr : tail.dropWhile (fun x => !isStop x) with
          | nil => exact Or.inl rfl
          | cons c cs =>
            refine Or.inr ⟨c, cs, rfl, ?_⟩
            have := dropWhileHeadFalse _ tail c cs hr
            simpa using this
    · rw [if_neg hp] at h
      obtain ⟨hne, hv, p, rest, hsplit, hstop⟩ := ih v h
      exact ⟨hne, hv, a :: p, rest, by simp [hsplit], hstop⟩

theorem findSessionIdComplete :
    ∀ (p : List Char) (d : Char) (v2 : List Char), isStop d = false →
      (findSessionId (p ++ sessionKeyL ++ (d :: v2))).isSome = true := by
  intro p
  induction p with
  | nil =>
    intro d v2 hd
    have hp : sessionKeyL.isPrefixOf (([] : List Char) ++ sessionKeyL ++ (d :: v2)) = true := by
      rw [List.nil_append]
      exact List.isPrefixOf_iff_prefix.mpr (List.prefix_append sessionKeyL (d :: v2))
    have hlen : sessionKeyL.length = 10 := rfl
    have hdrop : (([] : List Char) ++ sessionKeyL ++ (d :: v2)).drop 10 = d :: v2 := by
      rw [List.nil_append, ← hlen, List.drop_left]
    have hne : ¬ (((([] : List Char) ++ sessionKeyL ++ (d :: v2)).drop 10).takeWhile
        (fun x => !isStop x)).isEmpty = true := by
      rw [hdrop, List.takeWhile_cons_of_pos (by simp [hd])]
      simp
    rw [findSessionIdPrefix _ hp hne]
    rfl
  | cons a p' ih =>
    intro d v2 hd
    have hshape : (a :: p') ++ sessionKeyL ++ (d :: v2) =
        a :: (p' ++ sessionKeyL ++ (d :: v2)) := by
      simp [List.cons_append]
    rw [hshape, findSessionId]
    by_cases hp : sessionKeyL.isPrefixOf (a :: (p' ++ sessionKeyL ++ (d :: v2))) = true
    · rw [if_pos hp]
      by_cases he : (((a :: (p' ++ sessionKeyL ++ (d :: v2))).drop 10).takeWhile
          (fun x => !isStop x)).isEmpty = true
      · rw [if_pos he]
        exact ih d v2 hd
      · rw [if_neg he]
        rfl
    · rw [if_neg hp]
      exact ih d v2 hd

/-- C7: the buffered-text scan for the pattern sessionId=<value> (value
stopped by &, whitespace or newline) succeeds whenever the buffer
contains sessionId= followed by a nonempty stop-free run, and whatever
it extracts is a nonempty stop-free run that appears in the buffer right
after sessionId= and extends up to (not including) the next stop
character or the end of the buffer. -/
theorem mcp_c7 (buf p v rest : List Char)
    (hsplit : buf = p ++ sessionKeyL ++ (v ++ rest))
    (hne : v ≠ []) (hv : ∀ c ∈ v, isStop c = false) :
    ∃ w, findSessionId buf = some w ∧ w ≠ [] ∧ (∀ c ∈ w, isStop c = false) ∧
      ∃ q rest2, buf = q ++ sessionKeyL ++ (w ++ rest2) ∧
        (rest2 = [] ∨ ∃ c cs, rest2 = c :: cs ∧ isStop c = true) := by
  obtain ⟨d, v2, rfl⟩ : ∃ d v2, v = d :: v2 := by
    cases v with
    | nil => exact absurd rfl hne
    | cons d v2 => exact ⟨d, v2, rfl⟩
  have hshape : p ++ sessionKeyL ++ ((d :: v2) ++ rest) =
      p ++ sessionKeyL ++ (d :: (v2 ++ rest)) := by simp
  rw [hshape] at hsplit
  subst hsplit
  have his := findSessionIdComplete p d (v2 ++ rest) (hv d (by simp))
  obtain ⟨w, hw⟩ := Option.isSome_iff_exists.mp his
  obtain ⟨hne', hv', q, rest2, hsplit', hstop⟩ := findSessionIdSound _ w hw
  exact ⟨w, hw, hne', hv', q, rest2, hsplit', hstop⟩

/-- C7 witness: the claim's example body yields exactly sess-xyz (the
scan stops at the ampersand). -/
theorem mcp_c7_witness :
    (∃ w, findSessionId
        ("data: /path/message?sessionId=sess-xyz&Authorization=abc+/?&=\n\n").data = some w ∧
      w ≠ [] ∧ (∀ c ∈ w, isStop c = false) ∧
      ∃ q rest2, ("data: /path/message?sessionId=sess-xyz&Authorization=abc+/?&=\n\n").data =
          q ++ sessionKeyL ++ (w ++ rest2) ∧
        (rest2 = [] ∨ ∃ c cs, rest2 = c :: cs ∧ isStop c = true)) ∧
    extractSessionId "data: /path/message?sessionId=sess-xyz&Authorization=abc+/?&=\n\n" =
      some "sess-xyz" :=
  ⟨mcp_c7 _ ("data: /path/message?").data ("sess-xyz").data
      ("&Authorization=abc+/?&=\n\n").data (by decide) (by decide) (by decide),
   by decide⟩

/-! ## Inert-stream lemmas (C8). -/

/-- Truthiness of `json.result`. -/
def resultTruthy (j : Json) : Bool :=
  match jsMember j "result" with
  | some r => r.truthy
  | none => false

/-- A processed line that can neither reject nor resolve the call: not a
data line, or unparseable with a keyword-free payload (a quoted parse
error containing MCP or error would be re-raised), or a payload with no
truthy error and no truthy result (hence no content either). -/
def lineInert (l : List Char) : Bool :=
  match dataOf l with
  | none => true
  | some d =>
    match jsonParseL d with
    | none => !(parseRejects d)
    | some j => !(errTruthy j) && !(resultTruthy j)

theorem isErrOfResultFalsy (j : Json) (h : resultTruthy j = false) : isErrTruthy j = false := by
  unfold resultTruthy at h
  unfold isErrTruthy
  cases hr : jsMember j "result" with
  | none => rfl
  | some r =>
    rw [hr] at h
    cases r with
    | null => rfl
    | bool b => simp [jsMember]
    | num n => simp [jsMember]
    | str s => simp [jsMember]
    | arr xs => exact absurd h (by simp [Json.truthy])
    | obj kvs => exact absurd h (by simp [Json.truthy])

theorem contentOfResultFalsy (j : Json) (h : resultTruthy j = false) : contentField j = none := by
  unfold resultTruthy at h
  unfold contentField
  cases hr : jsMember j "result" with
  | none => rfl
  | some r =>
    rw [hr] at h
    cases r with
    | null => rfl
    | bool b => simp [jsMember]
    | num n => simp [jsMember]
    | str s => simp [jsMember]
    | arr xs => exact absurd h (by simp [Json.truthy])
    | obj kvs => exact absurd h (by simp [Json.truthy])

theorem bareOfResultFalsy (j : Json) (h : resultTruthy j = false) : bareResult j = .continueR := by
  unfold resultTruthy at h
  unfold bareResult
  cases hr : jsMember j "result" with
  | none => rfl
  | some r =>
    rw [hr] at h
    have h2 : r.truthy = false := h
    simp [h2]

theorem sseStepInert (j : Json) (he : errTruthy j = false) (hr : resultTruthy j = false) :
    sseStep j = .continueR := by
  cases j with
  | null => rfl
  | bool b =>
    simp only [sseStep]
    rw [isErrOfResultFalsy _ hr, he, contentOfResultFalsy _ hr, bareOfResultFalsy _ hr]
    rfl
  | num n =>
    simp only [sseStep]
    rw [isErrOfResultFalsy _ hr, he, contentOfResultFalsy _ hr, bareOfResultFalsy _ hr]
    rfl
  | str s =>
    simp only [sseStep]
    rw [isErrOfResultFalsy _ hr, he, contentOfResultFalsy _ hr, bareOfResultFalsy _ hr]
    rfl
  | arr xs =>
    simp only [sseStep]
    rw [isErrOfResultFalsy _ hr, he, contentOfResultFalsy _ hr, bareOfResultFalsy _ hr]
    rfl
  | obj kvs =>
    simp only [sseStep]
    rw [isErrOfResultFalsy _ hr, he, contentOfResultFalsy _ hr, bareOfResultFalsy _ hr]
    rfl

theorem sseProcessInert :
    ∀ (ls : List (List Char)), (∀ l ∈ ls, lineInert l = true) →
      sseProcess ls = .error (.message streamEndMsg) := by
  intro ls
  induction ls with
  | nil => intro _; rfl
  | cons l rest ih =>
    intro h
    have hl := h l (by simp)
    have hrest := ih (fun x hx => h x (by simp [hx]))
    unfold lineInert at hl
    rw [sseProcess]
    cases hd : dataOf l with
    | none => exact hrest
    | some d =>
      rw [hd] at hl
      have hl2 : (match jsonParseL d with
        | none => !(parseRejects d)
        | some j => !(errTruthy j) && !(resultTruthy j)) = true := hl
      by_cases hde : d.isEmpty = true
      all_goals
        show (if d.isEmpty = true then sseProcess rest
          else match jsonParseL d with
            | none =>
              if parseRejects d then Except.error (CallFail.syntaxReject d)
              else sseProcess rest
            | some j =>
              match sseStep j with
              | StepR.failR e => Except.error e
              | StepR.succeedR v => Except.ok v
              | StepR.continueR => sseProcess rest) =
          Except.error (CallFail.message streamEndMsg)
      · rw [if_pos hde]
        exact hrest
      · rw [if_neg hde]
        cases hp : jsonParseL d with
        | none =>
          rw [hp] at hl2
          have h5 : ¬ parseRejects d = true := by simpa using hl2
          have hbranch : (if parseRejects d = true then
              Except.error (CallFail.syntaxReject d) else sseProcess rest) =
              Except.error (CallFail.message streamEndMsg) := by
            rw [if_neg h5]
            exact hrest
          exact hbranch
        | some j =>
          rw [hp] at hl2
          have h3 : (!(errTruthy j) && !(resultTruthy j)) = true := hl2
          have h4 : errTruthy j = false ∧ resultTruthy j = false := by
            simpa using h3
          have hfin : (match sseStep j with
            | StepR.failR e => Except.error e
            | StepR.succeedR v => Except.ok v
            | StepR.continueR => sseProcess rest) =
              Except.error (CallFail.message streamEndMsg) := by
            rw [sseStepInert j h4.1 h4.2]
            exact hrest
          exact hfin

/-- C8 counterexample: the body data: terror (newline terminated) ends
without any payload carrying a JSON-RPC error, a result.content field or
a bare result field - the line does not even parse - yet the call does
not fail with the stream-ended error: on Node >= 22 the quoted
JSON.parse SyntaxError message contains the word error (the payload
terror embeds it), so the catch re-raises that SyntaxError. -/
theorem mcp_c8_cex :
    jsonParseL ("terror").data = none ∧
    parseRejects ("terror").data = true ∧
    callRemoteMcpToolBody "data: terror\n" =
      .error (.syntaxReject ("terror").data) ∧
    CallFail.syntaxReject ("terror").data ≠ CallFail.message streamEndMsg :=
  ⟨rfl, by decide, rfl, by decide⟩

/-- C8 amended: when every complete line of the response body is inert
(not a data line; or unparseable with a payload free of the substrings
MCP and error, so the quoted engine parse error is swallowed; or a
payload with no truthy JSON-RPC error field and no truthy result field,
hence also no result.content), the streaming tool call fails with the
MCP stream ended without result error rather than resolving; an
unparseable data line whose payload carries such a keyword instead fails
the call with the engine SyntaxError - in neither case does the call
succeed with an empty or undefined value. -/
theorem mcp_c8_amended :
    (∀ body, (∀ l ∈ sseLines body, lineInert l = true) →
      callRemoteMcpToolBody body = .error (.message streamEndMsg)) ∧
    callRemoteMcpToolBody "data: terror\n" =
      .error (.syntaxReject ("terror").data) :=
  ⟨fun body h => sseProcessInert (sseLines body) h, rfl⟩

/-- C8 amended witness: a body of keep-alive noise, a payload with
neither error nor result, an unparseable keyword-free data line and an
empty data line ends in the stream-ended failure. -/
theorem mcp_c8_amended_witness :
    callRemoteMcpToolBody
      ": keep-alive\ndata: \x7b\"jsonrpc\":\"2.0\",\"id\":1\x7d\ndata: notjson\ndata:\n" =
      .error (.message streamEndMsg) :=
  mcp_c8_amended.1 _ (by decide)

/-! ## Normalizer lemmas (C4). -/

/-- The top-level content carries no null array element (non-arrays are
unconstrained). -/
def nullFreeTop (content : Json) : Prop :=
  match content with
  | .arr xs => Json.null ∉ xs
  | _ => True

theorem elemTextNonNull (c : Json) (h : c ≠ Json.null) :
    elemText c = .ok (amendedElemText c) := by
  cases c with
  | null => exact absurd rfl h
  | bool b => rfl
  | num n => rfl
  | str s => rfl
  | arr xs => rfl
  | obj kvs =>
    cases hl : lookupField kvs "text" with
    | none => simp [elemText, amendedElemText, jsMember, hl]
    | some t => simp [elemText, amendedElemText, jsMember, hl]

theorem okSplit (C : Bool) (P : Option Json) (T : String) :
    (if C = true then
      match P with
      | some v => (Except.ok v : Except Unit Json)
      | none => Except.ok (Json.str T)
     else Except.ok (Json.str T)) =
    Except.ok (if C = true then
      match P with
      | some v => v
      | none => Json.str T
     else Json.str T) := by
  by_cases h : C = true
  · rw [if_pos h, if_pos h]
    cases P <;> rfl
  · rw [if_neg h, if_neg h]

theorem mapElemsNullFree (xs : List Json) (h : Json.null ∉ xs) :
    mapElems xs = .ok (xs.map amendedElemText) := by
  induction xs with
  | nil => rfl
  | cons c cs ih =>
    have hc : c ≠ Json.null := fun hcn => h (by rw [hcn]; simp)
    have hcs : Json.null ∉ cs := fun hm => h (by simp [hm])
    rw [mapElems, elemTextNonNull c hc, ih hcs]
    rfl

theorem mapElemsNullMem (xs : List Json) (h : Json.null ∈ xs) : mapElems xs = .error () := by
  induction xs with
  | nil => simp at h
  | cons c cs ih =>
    rcases List.mem_cons.mp h with hc | hc
    · rw [← hc]
      rfl
    · rw [mapElems]
      cases he : elemText c with
      | error e => rfl
      | ok v => rw [ih hc]

/-- C4 counterexample: the code normalizer is not the claim's reference
function and it can throw.  On [null] the element mapping accesses .text
of null and throws a TypeError (modelled .error).  On [obj with an empty
text field] the code falls back to the element itself (JavaScript ||
sees the empty string as falsy) and join renders it as
[object Object], while the claim's reference definition takes the text
field and yields the empty string. -/
theorem mcp_c4_cex :
    normalizeResult (Json.arr [Json.null]) = Except.error () ∧
    normalizeResult (Json.arr [Json.obj [("text", Json.str "")]]) =
      Except.ok (Json.str "[object Object]") ∧
    specNormalize (Json.arr [Json.obj [("text", Json.str "")]]) = Json.str "" ∧
    ("[object Object]" : String) ≠ "" :=
  ⟨rfl, rfl, rfl, by decide⟩

/-- C4 amended: on content whose array elements are all non-null the
normalizer is total and matches the amended reference (truthy text field,
else the element itself, joined with newlines, JSON re-parse when the
trimmed text starts with a brace or bracket, raw text on parse failure;
non-array content unchanged); an array containing null makes it throw;
the claim's two round-trip examples hold. -/
theorem mcp_c4_amended :
    (∀ content, nullFreeTop content →
      normalizeResult content = .ok (amendedNormalize content)) ∧
    (∀ xs, Json.null ∈ xs → normalizeResult (.arr xs) = .error ()) ∧
    normalizeResult (Json.arr [Json.obj [("text", Json.str "\x7b\"ok\":true\x7d")]]) =
      .ok (Json.obj [("ok", Json.bool true)]) ∧
    normalizeResult (Json.arr [Json.obj [("text", Json.str "plain text")]]) =
      .ok (Json.str "plain text") := by
  refine ⟨?_, ?_, rfl, rfl⟩
  · intro content hn
    cases content with
    | arr xs =>
      have hxs : Json.null ∉ xs := hn
      rw [normalizeResult, mapElemsNullFree xs hxs, amendedNormalize]
      exact okSplit _ _ _
    | null => rfl
    | bool b => rfl
    | num n => rfl
    | str s => rfl
    | obj kvs => rfl
  · intro xs h
    rw [normalizeResult, mapElemsNullMem xs h]

/-- C4 amended witness: a concrete non-null array agrees with the amended
reference, and an array containing null throws. -/
theorem mcp_c4_amended_witness :
    normalizeResult (Json.arr [Json.str "x"]) =
      .ok (amendedNormalize (Json.arr [Json.str "x"])) ∧
    normalizeResult (Json.arr [Json.num 1, Json.null]) = .error () :=
  ⟨mcp_c4_amended.1 (Json.arr [Json.str "x"])
      (fun h => Json.noConfusion (List.mem_singleton.mp h)),
   mcp_c4_amended.2.1 [Json.num 1, Json.null]
      (List.mem_cons_of_mem _ (List.mem_singleton.mpr rfl))⟩

/-! ## Transport-agreement lemmas (C2, C3). -/

theorem splitNlNoNl (x ys : List Char) (hx : ∀ c ∈ x, ¬ c = '\n') :
    splitNl (x ++ '\n' :: ys) = x :: splitNl ys := by
  induction x with
  | nil => simp [splitNl]
  | cons a as ih =>
    have ha : ¬ a = '\n' := hx a (by simp)
    have ih2 := ih (fun c hc => hx c (by simp [hc]))
    simp only [List.cons_append, splitNl]
    rw [if_neg ha]
    simp only [List.append_eq]
    rw [ih2]

theorem isPrefixOfAppend (p t : List Char) : p.isPrefixOf (p ++ t) = true :=
  List.isPrefixOf_iff_prefix.mpr (List.prefix_append p t)

theorem jsTrimConsWs (a : Char) (l : List Char) (h : isJsWs a = true) :
    jsTrimL (a :: l) = jsTrimL l := by
  unfold jsTrimL
  rw [List.dropWhile_cons, if_pos h]

theorem containsSubLOfPrefix (s pat : List Char) (h : pat.isPrefixOf s = true) :
    containsSubL s pat = true := by
  cases s with
  | nil =>
    cases pat with
    | nil => rfl
    | cons a as => simp [List.isPrefixOf] at h
  | cons a as => simp [containsSubL, h]

theorem sseStepContent (j c v : Json) (hc : contentField j = some c) (hct : c.truthy = true)
    (hn : normalizeResult c = .ok v) (he : errTruthy j = false) (hie : isErrTruthy j = false) :
    sseStep j = .succeedR v := by
  cases j with
  | null => simp [contentField, jsMember] at hc
  | bool b => simp [contentField, jsMember] at hc
  | num n => simp [contentField, jsMember] at hc
  | str s => simp [contentField, jsMember] at hc
  | arr xs => simp [contentField, jsMember] at hc
  | obj kvs =>
    simp only [sseStep]
    rw [hie, he, hc]
    simp only [hct, hn]
    rfl

theorem curlStepRestContent (j c v : Json) (hc : contentField j = some c)
    (hct : c.truthy = true) (hn : normalizeResult c = .ok v) (hie : isErrTruthy j = false) :
    curlStepRest j = .ok v := by
  simp only [curlStepRest]
  rw [hie, hc]
  simp only [hct, hn]
  rfl

theorem curlStepOfNoErr (j : Json) (hjn : j ≠ Json.null) (he : errTruthy j = false) :
    curlStep j = curlStepRest j := by
  unfold errTruthy at he
  cases j with
  | null => exact absurd rfl hjn
  | bool b => rfl
  | num n => rfl
  | str s => rfl
  | arr xs => rfl
  | obj kvs =>
    simp only [curlStep]
    cases hje : jsMember (Json.obj kvs) "error" with
    | none => rfl
    | some e =>
      rw [hje] at he
      have he2 : e.truthy = false := he
      show (if e.truthy = true then
          Except.error (CallFail.message (truthyOr (jsMember e "message") mcpFailMsg))
        else curlStepRest (Json.obj kvs)) = curlStepRest (Json.obj kvs)
      rw [he2]
      rfl

theorem curlStepContent (j c v : Json) (hc : contentField j = some c) (hct : c.truthy = true)
    (hn : normalizeResult c = .ok v) (he : errTruthy j = false) (hie : isErrTruthy j = false) :
    curlStep j = .ok v := by
  have hjn : j ≠ Json.null := by
    intro h
    rw [h] at hc
    simp [contentField, jsMember] at hc
  exact (curlStepOfNoErr j hjn he).trans (curlStepRestContent j c v hc hct hn hie)

/-- C2 counterexample: the two transports are not interchangeable.  On
the bare-JSON success body (no SSE framing) the curl transport resolves
with the normalized value while the streaming transport fails with the
stream-ended error, because its loop only examines lines starting with
data:. -/
theorem mcp_c2_cex :
    callMcpToolBody "\x7b\"result\": \x7b\"content\": [\x7b\"text\": \"hi\"\x7d]\x7d\x7d" =
      .ok (.str "hi") ∧
    callRemoteMcpToolBody "\x7b\"result\": \x7b\"content\": [\x7b\"text\": \"hi\"\x7d]\x7d\x7d" =
      .error (.message streamEndMsg) :=
  ⟨rfl, rfl⟩

/-- C2 amended: the two transports agree on SSE-framed responses
consisting of a single newline-terminated data: line whose trimmed
payload parses to a JSON value with no truthy error field, no truthy
result.isError, and a truthy result.content whose normalization does not
throw: both resolve with the identical normalized value.  (They are not
interchangeable on other bodies: see the counterexample for bare JSON.) -/
theorem mcp_c2_amended (d : List Char) (j c v : Json)
    (hnl : ∀ ch ∈ d, ¬ ch = '\n') (htrim : jsTrimL d = d) (hne : d ≠ [])
    (hparse : jsonParseL d = some j)
    (herr : errTruthy j = false) (hie : isErrTruthy j = false)
    (hc : contentField j = some c) (hct : c.truthy = true)
    (hn : normalizeResult c = .ok v) :
    callRemoteMcpToolBody ⟨"data: ".data ++ d ++ "\n\n".data⟩ = .ok v ∧
    callMcpToolBody ⟨"data: ".data ++ d ++ "\n\n".data⟩ = .ok v := by
  have hxnl : ∀ ch ∈ "data: ".data ++ d, ¬ ch = '\n' := by
    intro ch hch
    rcases List.mem_append.mp hch with h1 | h1
    · have hdd : ∀ ch ∈ "data: ".data, ¬ ch = '\n' := by decide
      exact hdd ch h1
    · exact hnl ch h1
  have hsplit : splitNl (("data: ".data ++ d) ++ '\n' :: ['\n']) =
      [("data: ".data ++ d), [], []] := by
    rw [splitNlNoNl _ _ hxnl]
    rfl
  have hdata : dataOf ("data: ".data ++ d) = some d := by
    unfold dataOf
    rw [show ("data: ".data ++ d) = dataKeyL ++ (' ' :: d) from rfl,
      if_pos (isPrefixOfAppend dataKeyL (' ' :: d)),
      show (5 : Nat) = dataKeyL.length from rfl, List.drop_left,
      jsTrimConsWs ' ' d (by decide), htrim]
  have hdempty : ¬ d.isEmpty = true := by
    cases d with
    | nil => exact absurd rfl hne
    | cons a as => exact Bool.false_ne_true
  have hfin : (match sseStep j with
    | StepR.failR e => Except.error e
    | StepR.succeedR vv => Except.ok vv
    | StepR.continueR => sseProcess [[]]) = Except.ok v := by
    rw [sseStepContent j c v hc hct hn herr hie]
  constructor
  · show sseProcess (sseLines ⟨"data: ".data ++ d ++ "\n\n".data⟩) = .ok v
    have hlines : sseLines ⟨"data: ".data ++ d ++ "\n\n".data⟩ =
        [("data: ".data ++ d), []] := by
      unfold sseLines
      show (splitNl (("data: ".data ++ d) ++ '\n' :: ['\n'])).dropLast = _
      rw [hsplit]
      rfl
    rw [hlines, sseProcess, hdata]
    show (if d.isEmpty = true then sseProcess [[]]
      else match jsonParseL d with
        | none =>
          if parseRejects d then Except.error (CallFail.syntaxReject d)
          else sseProcess [[]]
        | some jj =>
          match sseStep jj with
          | StepR.failR e => Except.error e
          | StepR.succeedR vv => Except.ok vv
          | StepR.continueR => sseProcess [[]]) = Except.ok v
    rw [if_neg hdempty, hparse]
    exact hfin
  · have hcontains : containsSub ⟨"data: ".data ++ d ++ "\n\n".data⟩ "data:" = true := by
      unfold containsSub
      exact containsSubLOfPrefix _ _
        (isPrefixOfAppend dataKeyL (' ' :: (d ++ "\n\n".data)))
    have hfind : (splitNl (("data: ".data ++ d) ++ '\n' :: ['\n'])).find?
        (fun l => dataKeyL.isPrefixOf l) = some ("data: ".data ++ d) := by
      rw [hsplit]
      exact List.find?_cons_of_pos _ (isPrefixOfAppend dataKeyL (' ' :: d))
    have hextract : curlExtract ⟨"data: ".data ++ d ++ "\n\n".data⟩ = d := by
      unfold curlExtract
      rw [if_pos hcontains]
      show (match (splitNl (("data: ".data ++ d) ++ '\n' :: ['\n'])).find?
          (fun l => dataKeyL.isPrefixOf l) with
        | some line => jsTrimL (line.drop 5)
        | none => ("data: ".data ++ d) ++ '\n' :: ['\n']) = d
      rw [hfind]
      show jsTrimL (("data: ".data ++ d).drop 5) = d
      rw [show ("data: ".data ++ d) = dataKeyL ++ (' ' :: d) from rfl,
        show (5 : Nat) = dataKeyL.length from rfl, List.drop_left,
        jsTrimConsWs ' ' d (by decide), htrim]
    show callMcpToolBody _ = .ok v
    unfold callMcpToolBody
    rw [hextract, hparse]
    exact curlStepContent j c v hc hct hn herr hie

/-- C2 amended witness: on the single-data-line SSE body carrying
result.content [(text hi)] both transports resolve with the string hi. -/
theorem mcp_c2_amended_witness :
    callRemoteMcpToolBody
      ⟨"data: ".data ++ ("\x7b\"result\":\x7b\"content\":[\x7b\"text\":\"hi\"\x7d]\x7d\x7d").data ++
        "\n\n".data⟩ = .ok (.str "hi") ∧
    callMcpToolBody
      ⟨"data: ".data ++ ("\x7b\"result\":\x7b\"content\":[\x7b\"text\":\"hi\"\x7d]\x7d\x7d").data ++
        "\n\n".data⟩ = .ok (.str "hi") :=
  mcp_c2_amended ("\x7b\"result\":\x7b\"content\":[\x7b\"text\":\"hi\"\x7d]\x7d\x7d").data
    (Json.obj [("result", Json.obj [("content",
      Json.arr [Json.obj [("text", Json.str "hi")]])])])
    (Json.arr [Json.obj [("text", Json.str "hi")]]) (Json.str "hi")
    (by decide) (by decide) (by decide) rfl rfl rfl rfl rfl rfl

/-- C3 counterexample: on the bare-JSON error body the streaming
transport does not surface the embedded message: it fails with the
stream-ended error, whose text does not contain bad tool. -/
theorem mcp_c3_cex :
    callRemoteMcpToolBody "\x7b\"error\": \x7b\"message\": \"bad tool\"\x7d\x7d" =
      .error (.message streamEndMsg) ∧
    containsSub streamEndMsg "bad tool" = false :=
  ⟨rfl, by decide⟩

/-- C3 amended: a response whose JSON-RPC payload is
(error (message bad tool)) makes the call fail with an error whose
message is exactly bad tool in three of the four combinations: both
transports on the SSE-framed body, and the curl transport on the
bare-JSON body; the streaming transport on the bare-JSON body still
fails, but with the stream-ended message instead. -/
theorem mcp_c3_amended :
    callRemoteMcpToolBody "data: \x7b\"error\": \x7b\"message\": \"bad tool\"\x7d\x7d\n\n" =
      .error (.message "bad tool") ∧
    callMcpToolBody "data: \x7b\"error\": \x7b\"message\": \"bad tool\"\x7d\x7d\n\n" =
      .error (.message "bad tool") ∧
    callMcpToolBody "\x7b\"error\": \x7b\"message\": \"bad tool\"\x7d\x7d" =
      .error (.message "bad tool") ∧
    callRemoteMcpToolBody "\x7b\"error\": \x7b\"message\": \"bad tool\"\x7d\x7d" =
      .error (.message streamEndMsg) ∧
    containsSub "bad tool" "bad tool" = true :=
  ⟨rfl, rfl, rfl, rfl, by decide⟩
